import Mathlib

/-! # MilkCat `milkcat-tools gram`: the n-gram artifact builder

A shallow embedding of `src/milkcat_tools.cc` (`ReadUnigramFile`, `ReadBigramFile`,
`BuildAndSaveUnigramData`, `SaveBigramBinFile`, `MakeGramModel`) and the properties
of the build pipeline proved about it.

Conventions of the embedding.

* A `std::map<K, V>` is the list of its entries in iteration order, that is with
  strictly ascending keys (`StdMapOrdered`).  `std::string` keys are byte strings;
  they are instantiated by `Term = List Nat` with the lexicographic order, which is
  the order `std::string::operator<` computes.
* `int`, `int32_t` and `int64_t` values are integers reduced with `toInt32` / `toInt64`
  wherever the C++ code stores them into a variable of that width.
* `double` and `float` arithmetic is abstracted: the type `D` of `double` values with
  its `+`, `/` and unary `-` is a parameter, and so are the library function `log`, the
  conversion `ofInt` of an `int` to `double` and the narrowing `toFloat` to `float`.
  The same definitions are read over the reals with `log = Real.log`, or run on
  integers.
-/

namespace milkcat

/-! ## Machine integers -/

/-- Value of an integer after conversion to `int32_t` (two's complement wrap-around). -/
def toInt32 (n : Int) : Int := (n + 2 ^ 31) % 2 ^ 32 - 2 ^ 31

/-- Value of an integer after conversion to `int64_t` (two's complement wrap-around). -/
def toInt64 (n : Int) : Int := (n + 2 ^ 63) % 2 ^ 64 - 2 ^ 63

/-! ## `std::map` -/

/-- Iteration order of a `std::map`: keys strictly ascending, hence distinct. -/
def StdMapOrdered {K V : Type} [LinearOrder K] (m : List (K × V)) : Prop :=
  m.Pairwise (fun a b => a.1 < b.1)

/-- The statement `m[k] = f(m[k])` on a `std::map`: `operator[]` inserts the
value-initialised entry `(k, dflt)` at its sorted position when `k` is absent,
then the entry is overwritten by `f` of its value (`m[k] += c` is `f v = v + c`). -/
def mapUpdate {K V : Type} [LinearOrder K] (f : V → V) (dflt : V) (k : K) :
    List (K × V) → List (K × V)
  | [] => [(k, f dflt)]
  | (k', v) :: rest =>
    if k < k' then (k, f dflt) :: (k', v) :: rest
    else if k' < k then (k', v) :: mapUpdate f dflt k rest
    else (k', f v) :: rest

/-- Modelled from the spec: `Status` (its header is not among the sources) is the
mutable status value threaded through the stages: `OK`, an `IOError` with its message,
or the informational status that carries the usage message. -/
inductive Status where
  | OK : Status
  | IOError (msg : String) : Status
  | Info (msg : String) : Status
  deriving DecidableEq, Repr

/-- Modelled from the spec: `Status::ok()` holds of the OK status only. -/
def Status.ok : Status → Bool
  | Status.OK => true
  | _ => false

/-! ## The term index -/

/-- Modelled from the spec: `ReimuTrie` (declared in `common/reimu_trie.h`, which is not
among the sources) is the term index, a map `term → id : int32` with the operations
`Put(term, id)` and `Get(term, default) → id`, the latter returning `default` when the
term is absent.  The model is the lookup function of that map. -/
structure ReimuTrie (K : Type) where
  find : K → Option Int

/-- A fresh index, `new ReimuTrie()`. -/
def ReimuTrie.empty {K : Type} : ReimuTrie K := ⟨fun _ => none⟩

/-- `index->Put(key, value)`: the value is stored as an `int32`. -/
def ReimuTrie.Put {K : Type} [DecidableEq K] (t : ReimuTrie K) (key : K) (value : Int) :
    ReimuTrie K :=
  ⟨fun k => if k = key then some (toInt32 value) else t.find k⟩

/-- `index->Get(key, default_value)`. -/
def ReimuTrie.Get {K : Type} (t : ReimuTrie K) (key : K) (default_value : Int) : Int :=
  match t.find key with
  | some v => v
  | none => toInt32 default_value

/-! ## `BuildAndSaveUnigramData` -/

/-- Modelled from the spec: the artifact writer (`WritableFile`, `ReimuTrie::Save`,
`StaticHashTable::Save`, none of them among the sources) is represented by the outcome
of its operations, which the tool does not control: the status left by
`WritableFile::New`, the status left by `WritableFile::Write`, the result of
`ReimuTrie::Save` and the status left by `StaticHashTable::Save`. -/
structure WriteEnv where
  newStatus : Status
  writeStatus : Status
  indexSaved : Bool
  tableStatus : Status

/-- The loop of `BuildAndSaveUnigramData` over the entries of `unigram_data` in
iteration order: `index->Put(term, weight.size()); weight.push_back(value)`.
`toFloat` is the narrowing of the `double` value to `float`.  A term is handed to the
index as the C string `c_str()`, which is the term itself since terms scanned by `%s`
hold no NUL byte. -/
def buildLoop {K D F : Type} [DecidableEq K] (toFloat : D → F) :
    List (K × D) → ReimuTrie K × List F → ReimuTrie K × List F
  | [], s => s
  | (term, value) :: rest, (index, weight) =>
    buildLoop toFloat rest (index.Put term weight.length, weight ++ [toFloat value])

/-- Result of `BuildAndSaveUnigramData`: the index after the `Put`s, the weight vector,
the values handed to `Write` for `unigram.bin` (if the write was reached), and the
final status. -/
structure UnigramArtifacts (K F : Type) where
  index : ReimuTrie K
  weight : List F
  written : Option (List F)
  status : Status

/-- `BuildAndSaveUnigramData(unigram_data, index, status)`.  `zeroF` is the `float`
`0.0` pushed for the reserved id 0. -/
def BuildAndSaveUnigramData {K D F : Type} [DecidableEq K] (toFloat : D → F) (zeroF : F)
    (env : WriteEnv) (unigram_data : List (K × D)) (index : ReimuTrie K)
    (status : Status) : UnigramArtifacts K F :=
  let built := buildLoop toFloat unigram_data (index, [zeroF])
  -- if (status->ok()) fd = WritableFile::New(UNIGRAM_DATA_FILE, status);
  let s1 := if status.ok then env.newStatus else status
  -- if (status->ok()) fd->Write(weight.data(), sizeof(float) * weight.size(), status);
  let written := if s1.ok then some built.2 else none
  let s2 := if s1.ok then env.writeStatus else s1
  -- if (status->ok()) { bool success = index->Save(UNIGRAM_INDEX_FILE); ... }
  let s3 :=
    if s2.ok then
      (if env.indexSaved then s2
       else Status.IOError "Unable to save unigram index data: unigram.idx")
    else s2
  { index := built.1, weight := built.2, written := written, status := s3 }

/-! ## Input files and `sscanf` -/

/-- A term (`std::string`): its bytes.  The order on `Term` is lexicographic. -/
abbrev Term := List Nat

/-- Modelled from the spec: `ReadableFile` (declared in `util/readable_file.h`, which is
not among the sources) is the line-oriented input.  `opened` tells whether
`ReadableFile::New` succeeded; `reads` lists what the successive calls of `ReadLine`
deliver until `Eof()` holds: the bytes of a line, or `none` for a read error, which
sets an `IOError` status. -/
structure ReadableFile where
  opened : Bool
  reads : List (Option (List Nat))

/-- The byte test `isspace` of the C locale: space, `\t`, `\n`, `\v`, `\f`, `\r`. -/
def isspace (c : Nat) : Bool := c == 32 || (9 ≤ c && c ≤ 13)

/-- The directive `%s`: skip white space; at the end of the input the directive fails;
otherwise the maximal run of bytes that are not white space is the token.  The result
is the token and the input left after it. -/
def scanToken (input : List Nat) : Option (Term × List Nat) :=
  let s := input.dropWhile isspace
  if s = [] then none
  else some (s.takeWhile (fun c => !isspace c), s.dropWhile (fun c => !isspace c))

/-- What `sscanf(line, "%s %lf", word, &count)` assigns: directives are processed from
left to right and the call stops at the first one that fails. -/
inductive ScanUnigram (D : Type) where
  | eof : ScanUnigram D
  | word (w : Term) : ScanUnigram D
  | full (w : Term) (c : D) : ScanUnigram D
  deriving DecidableEq

/-- `sscanf(line, "%s %lf", ...)`.  The conversion of the directive `%lf` is the
parameter `strtod`: applied to the input after white space has been skipped, it gives
the converted value, or `none` when no number starts there. -/
def sscanf_s_lf {D : Type} (strtod : List Nat → Option D) (line : List Nat) :
    ScanUnigram D :=
  match scanToken line with
  | none => ScanUnigram.eof
  | some (w, rest) =>
    match strtod (rest.dropWhile isspace) with
    | none => ScanUnigram.word w
    | some c => ScanUnigram.full w c

/-- The same assignment with the converted number read through `g`. -/
def ScanUnigram.map {D E : Type} (g : D → E) : ScanUnigram D → ScanUnigram E
  | ScanUnigram.eof => ScanUnigram.eof
  | ScanUnigram.word w => ScanUnigram.word w
  | ScanUnigram.full w c => ScanUnigram.full w (g c)

/-- Return value of the `sscanf` call: the number of assigned fields, or `EOF`. -/
def ScanUnigram.ret {D : Type} : ScanUnigram D → Int
  | ScanUnigram.eof => -1
  | ScanUnigram.word _ => 1
  | ScanUnigram.full _ _ => 2

/-- The variables `(word, count)` after the `sscanf` call: a field that was not
assigned keeps the value it had. -/
def ScanUnigram.store {D : Type} : ScanUnigram D → Term × D → Term × D
  | ScanUnigram.eof, vars => vars
  | ScanUnigram.word w, vars => (w, vars.2)
  | ScanUnigram.full w c, _ => (w, c)

/-- What `sscanf(line, "%s %s %d", left, right, &count)` assigns. -/
inductive ScanBigram where
  | eof : ScanBigram
  | left (l : Term) : ScanBigram
  | pair (l r : Term) : ScanBigram
  | full (l r : Term) (c : Int) : ScanBigram
  deriving DecidableEq

/-- `sscanf(line, "%s %s %d", ...)`.  The conversion of the directive `%d` is the
parameter `strtol`; its value is stored into an `int`. -/
def sscanf_s_s_d (strtol : List Nat → Option Int) (line : List Nat) : ScanBigram :=
  match scanToken line with
  | none => ScanBigram.eof
  | some (l, rest) =>
    match scanToken rest with
    | none => ScanBigram.left l
    | some (r, rest') =>
      match strtol (rest'.dropWhile isspace) with
      | none => ScanBigram.pair l r
      | some c => ScanBigram.full l r (toInt32 c)

/-- Return value of the `sscanf` call: the number of assigned fields, or `EOF`. -/
def ScanBigram.ret : ScanBigram → Int
  | ScanBigram.eof => -1
  | ScanBigram.left _ => 1
  | ScanBigram.pair _ _ => 2
  | ScanBigram.full _ _ _ => 3

/-- The variables `(left, right, count)` after the `sscanf` call. -/
def ScanBigram.store : ScanBigram → Term × Term × Int → Term × Term × Int
  | ScanBigram.eof, vars => vars
  | ScanBigram.left l, vars => (l, vars.2.1, vars.2.2)
  | ScanBigram.pair l r, vars => (l, r, vars.2.2)
  | ScanBigram.full l r c, _ => (l, r, c)

/-! ## `ReadUnigramFile` -/

/-- The variables of `ReadUnigramFile` while the file is read. -/
structure UnigramState (D : Type) where
  word : Term
  count : D
  unigram_data : List (Term × D)
  sum : D
  status : Status
  deriving DecidableEq

/-- One iteration of the `while` loop of `ReadUnigramFile` on a line that `ReadLine`
delivered: the result of `sscanf` is not inspected, the map and the sum are updated
from the variables `word` and `count` whatever they hold. -/
def unigramLine {D : Type} [Zero D] [Add D] (strtod : List Nat → Option D)
    (line : List Nat) (s : UnigramState D) : UnigramState D :=
  let vars := (sscanf_s_lf strtod line).store (s.word, s.count)
  { word := vars.1
    count := vars.2
    unigram_data := mapUpdate (fun v => v + vars.2) 0 vars.1 s.unigram_data
    sum := s.sum + vars.2
    status := s.status }

/-- The `while (status->ok() && !fd->Eof())` loop of `ReadUnigramFile`, entered with an
OK status: a failed `ReadLine` sets the status, which ends the loop. -/
def unigramLoop {D : Type} [Zero D] [Add D] (strtod : List Nat → Option D) :
    List (Option (List Nat)) → UnigramState D → UnigramState D
  | [], s => s
  | none :: _, s => { s with status := Status.IOError "failed to read" }
  | some line :: rest, s => unigramLoop strtod rest (unigramLine strtod line s)

/-- What `ReadUnigramFile` leaves in `*unigram_data` and `*status`. -/
structure UnigramResult (D : Type) where
  unigram_data : List (Term × D)
  status : Status

/-- `ReadUnigramFile(unigram_file, unigram_data, status)`.  `log` is the library
function; `word0` and `count0` are the contents of the uninitialised buffers `word` and
`count` at entry. -/
def ReadUnigramFile {D : Type} [Zero D] [Add D] [Neg D] [Div D]
    (strtod : List Nat → Option D) (log : D → D) (word0 : Term) (count0 : D)
    (fd : ReadableFile)
    (unigram_data : List (Term × D)) (status : Status) : UnigramResult D :=
  -- ReadableFile *fd = ReadableFile::New(unigram_file, status);
  let s0 : UnigramState D :=
    { word := word0, count := count0, unigram_data := unigram_data, sum := 0,
      status := if fd.opened then status else Status.IOError "failed to open" }
  let s1 := if s0.status.ok then unigramLoop strtod fd.reads s0 else s0
  -- if (status->ok()) for each entry: it->second = -log(it->second / sum);
  if s1.status.ok then
    { unigram_data := s1.unigram_data.map (fun e => (e.1, -(log (e.2 / s1.sum))))
      status := s1.status }
  else
    { unigram_data := s1.unigram_data, status := s1.status }

/-! ## `ReadBigramFile` -/

/-- The variables of `ReadBigramFile` while the file is read. -/
structure BigramState where
  left : Term
  right : Term
  count : Int
  bigram_data : List (Lex (Term × Term) × Int)
  total_count : Int
  status : Status
  deriving DecidableEq

/-- One iteration of the `while` loop of `ReadBigramFile` on a line that `ReadLine`
delivered; the additions are `int` additions. -/
def bigramLine (strtol : List Nat → Option Int) (line : List Nat) (s : BigramState) :
    BigramState :=
  let vars := (sscanf_s_s_d strtol line).store (s.left, s.right, s.count)
  { left := vars.1
    right := vars.2.1
    count := vars.2.2
    bigram_data :=
      mapUpdate (fun v => toInt32 (v + vars.2.2)) 0 (toLex (vars.1, vars.2.1)) s.bigram_data
    total_count := toInt32 (s.total_count + vars.2.2)
    status := s.status }

/-- The `while (status->ok() && !fd->Eof())` loop of `ReadBigramFile`, entered with an
OK status. -/
def bigramReadLoop (strtol : List Nat → Option Int) :
    List (Option (List Nat)) → BigramState → BigramState
  | [], s => s
  | none :: _, s => { s with status := Status.IOError "failed to read" }
  | some line :: rest, s => bigramReadLoop strtol rest (bigramLine strtol line s)

/-- `ReadBigramFile(bigram_file, bigram_data, total_count, status)`; `left0`, `right0`
and `count0` are the contents of the uninitialised variables at entry. -/
def ReadBigramFile (strtol : List Nat → Option Int) (left0 right0 : Term) (count0 : Int)
    (fd : ReadableFile) (bigram_data : List (Lex (Term × Term) × Int))
    (status : Status) : BigramState :=
  -- ReadableFile *fd = ReadableFile::New(bigram_file, status); *total_count = 0;
  let s0 : BigramState :=
    { left := left0, right := right0, count := count0, bigram_data := bigram_data,
      total_count := 0,
      status := if fd.opened then status else Status.IOError "failed to open" }
  if s0.status.ok then bigramReadLoop strtol fd.reads s0 else s0

/-! ## `SaveBigramBinFile` -/

/-- The key `(static_cast<int64_t>(left_id) << 32) + right_id`, computed in `int64_t`. -/
def packKey (left_id right_id : Int) : Int :=
  toInt64 (toInt64 (toInt64 left_id * 2 ^ 32) + right_id)

/-- The loop of `SaveBigramBinFile` over the entries of `bigram_data` in iteration
order, extending the vectors `keys` and `values`.  The value pushed is
`-log(static_cast<double>(count) / total_count)` narrowed to `float`; `ofInt` converts
an `int` to `double`. -/
def saveLoop {K D F : Type} [LinearOrder K] [Neg D] [Div D] (ofInt : Int → D)
    (log : D → D) (toFloat : D → F) (total_count : Int) (index : ReimuTrie K) :
    List (Lex (K × K) × Int) → List Int × List F → List Int × List F
  | [], s => s
  | (words, count) :: rest, (keys, values) =>
    let left_id := toInt32 (index.Get (ofLex words).1 (-1))
    let right_id := toInt32 (index.Get (ofLex words).2 (-1))
    if 0 < left_id ∧ 0 < right_id then
      saveLoop ofInt log toFloat total_count index rest
        (keys ++ [packKey left_id right_id],
         values ++ [toFloat (-(log (ofInt count / ofInt total_count)))])
    else
      saveLoop ofInt log toFloat total_count index rest (keys, values)

/-- Result of `SaveBigramBinFile`: the vectors handed to `StaticHashTable::Build`, the
returned `int` and the status after `hashtable->Save`. -/
structure BigramArtifacts (F : Type) where
  keys : List Int
  values : List F
  ret : Int
  status : Status

/-- `SaveBigramBinFile(bigram_data, total_count, index, status)`. -/
def SaveBigramBinFile {K D F : Type} [LinearOrder K] [Neg D] [Div D] (ofInt : Int → D)
    (log : D → D) (toFloat : D → F) (env : WriteEnv)
    (bigram_data : List (Lex (K × K) × Int)) (total_count : Int) (index : ReimuTrie K)
    (status : Status) : BigramArtifacts F :=
  let kv := saveLoop ofInt log toFloat total_count index bigram_data ([], [])
  -- hashtable->Save(BIGRAM_FILE, status); return keys.size();
  { keys := kv.1, values := kv.2, ret := toInt32 kv.1.length,
    status := if status.ok then env.tableStatus else status }

/-! ## `MakeGramModel` -/

/-- The four stages of `MakeGramModel`. -/
inductive Stage where
  | readUnigram : Stage
  | readBigram : Stage
  | buildUnigram : Stage
  | saveBigram : Stage
  deriving DecidableEq, Repr

/-- The local variables of `MakeGramModel`, with the record of the stages executed so
far, each with the status it left. -/
structure GramState (D F : Type) where
  status : Status
  unigram_data : List (Term × D)
  bigram_data : List (Lex (Term × Term) × Int)
  total_count : Int
  index : ReimuTrie Term
  weight : List F
  keys : List Int
  values : List F
  count : Int
  trace : List (Stage × Status)

/-- What `MakeGramModel` needs from outside: the two input files, the buffers' initial
contents, the outcome of the writes, and the numeric primitives. -/
structure GramInput (D F : Type) where
  argc : Int
  unigram_file : ReadableFile
  bigram_file : ReadableFile
  env : WriteEnv
  word0 : Term
  count0 : D
  left0 : Term
  right0 : Term
  icount0 : Int
  strtod : List Nat → Option D
  strtol : List Nat → Option Int
  log : D → D
  ofInt : Int → D
  toFloat : D → F
  zeroF : F

/-- `if (status.ok()) { ReadUnigramFile(unigram_file, &unigram_data, &status); }` -/
def stageReadUnigram {D F : Type} [Zero D] [Add D] [Neg D] [Div D] (inp : GramInput D F)
    (s : GramState D F) : GramState D F :=
  if s.status.ok then
    let r := ReadUnigramFile inp.strtod inp.log inp.word0 inp.count0 inp.unigram_file
      s.unigram_data s.status
    { s with unigram_data := r.unigram_data, status := r.status,
             trace := s.trace ++ [(Stage.readUnigram, r.status)] }
  else s

/-- `if (status.ok()) { ReadBigramFile(bigram_file, &bigram_data, &total_count, &status); }` -/
def stageReadBigram {D F : Type} (inp : GramInput D F) (s : GramState D F) :
    GramState D F :=
  if s.status.ok then
    let r := ReadBigramFile inp.strtol inp.left0 inp.right0 inp.icount0 inp.bigram_file
      s.bigram_data s.status
    { s with bigram_data := r.bigram_data, total_count := r.total_count,
             status := r.status, trace := s.trace ++ [(Stage.readBigram, r.status)] }
  else s

/-- `if (status.ok()) { BuildAndSaveUnigramData(unigram_data, index, &status); }` -/
def stageBuildUnigram {D F : Type} (inp : GramInput D F) (s : GramState D F) :
    GramState D F :=
  if s.status.ok then
    let r := BuildAndSaveUnigramData inp.toFloat inp.zeroF inp.env s.unigram_data s.index
      s.status
    { s with index := r.index, weight := r.weight, status := r.status,
             trace := s.trace ++ [(Stage.buildUnigram, r.status)] }
  else s

/-- `if (status.ok()) { count = SaveBigramBinFile(bigram_data, total_count, index, &status); }` -/
def stageSaveBigram {D F : Type} [Neg D] [Div D] (inp : GramInput D F) (s : GramState D F) :
    GramState D F :=
  if s.status.ok then
    let r := SaveBigramBinFile inp.ofInt inp.log inp.toFloat inp.env s.bigram_data
      s.total_count s.index s.status
    { s with keys := r.keys, values := r.values, count := r.ret, status := r.status,
             trace := s.trace ++ [(Stage.saveBigram, r.status)] }
  else s

/-- The state of `MakeGramModel` before the first stage: fresh containers, and the
usage message as status when `argc != 4`. -/
def gramInit {D F : Type} (inp : GramInput D F) : GramState D F :=
  { status :=
      if inp.argc ≠ 4 then
        Status.Info "Usage: milkcat-tools gram [UNIGRAM FILE] [BIGRAM FILE]"
      else Status.OK
    unigram_data := [], bigram_data := [], total_count := 0, index := ReimuTrie.empty,
    weight := [], keys := [], values := [], count := 0, trace := [] }

/-- The state of `MakeGramModel` after its four guarded stages. -/
def gramRun {D F : Type} [Zero D] [Add D] [Neg D] [Div D] (inp : GramInput D F) :
    GramState D F :=
  stageSaveBigram inp (stageBuildUnigram inp (stageReadBigram inp
    (stageReadUnigram inp (gramInit inp))))

/-- `MakeGramModel(argc, argv)`: the exit code, `0` when the final status is OK and
`-1` otherwise. -/
def MakeGramModel {D F : Type} [Zero D] [Add D] [Neg D] [Div D] (inp : GramInput D F) :
    Int :=
  if (gramRun inp).status.ok then 0 else -1

/-! ## Sample inputs -/

/-- Bytes of an ASCII string literal. -/
def ascii (s : String) : List Nat := s.toList.map Char.toNat

/-- A conversion for unsigned decimal numerals, to run the scanners on sample lines:
the value of the digits the input starts with, `none` when it starts with no digit. -/
def scanDecimal (input : List Nat) : Option Nat :=
  let ds := input.takeWhile (fun c => 48 ≤ c && c ≤ 57)
  if ds = [] then none else some (ds.foldl (fun a d => 10 * a + (d - 48)) 0)

/-! ## `double` values read over the reals -/

/-- A `double` read over the real numbers `R`.  `finite r` is the real number `r`;
`undefined` says that the computation has left the real numbers, by a division by zero,
by the logarithm of a number that is not positive, or by an operation on such a result:
the program then holds an infinity or a NaN, and no real number. -/
inductive RealValue (R : Type) where
  | finite (r : R) : RealValue R
  | undefined : RealValue R
  deriving DecidableEq

/-- Addition of `double` values read over the reals. -/
def RealValue.add {R : Type} [Add R] : RealValue R → RealValue R → RealValue R
  | RealValue.finite a, RealValue.finite b => RealValue.finite (a + b)
  | _, _ => RealValue.undefined

/-- Unary minus of `double` values read over the reals. -/
def RealValue.neg {R : Type} [Neg R] : RealValue R → RealValue R
  | RealValue.finite a => RealValue.finite (-a)
  | RealValue.undefined => RealValue.undefined

/-- Division of `double` values read over the reals: undefined when the divisor is 0. -/
def RealValue.div {R : Type} [Zero R] [Div R] [DecidableEq R] :
    RealValue R → RealValue R → RealValue R
  | RealValue.finite a, RealValue.finite b =>
    if b = 0 then RealValue.undefined else RealValue.finite (a / b)
  | _, _ => RealValue.undefined

/-- The library function `log` read over the reals, from the logarithm `ln` of `R`:
defined on the positive numbers only. -/
def RealValue.log {R : Type} [Zero R] [LT R] [DecidableRel (fun a b : R => a < b)]
    (ln : R → R) : RealValue R → RealValue R
  | RealValue.finite a => if 0 < a then RealValue.finite (ln a) else RealValue.undefined
  | RealValue.undefined => RealValue.undefined

instance RealValue.instZero {R : Type} [Zero R] : Zero (RealValue R) where
  zero := RealValue.finite 0

instance RealValue.instAdd {R : Type} [Add R] : Add (RealValue R) where
  add := RealValue.add

instance RealValue.instAddCommMonoid {R : Type} [AddCommMonoid R] :
    AddCommMonoid (RealValue R) where
  add_assoc := by
    intro a b c
    cases a <;> cases b <;> cases c <;>
      first
        | rfl
        | exact congrArg RealValue.finite (add_assoc _ _ _)
  zero_add := by
    intro a
    cases a
    · exact congrArg RealValue.finite (zero_add _)
    · rfl
  add_zero := by
    intro a
    cases a
    · exact congrArg RealValue.finite (add_zero _)
    · rfl
  add_comm := by
    intro a b
    cases a <;> cases b <;>
      first
        | rfl
        | exact congrArg RealValue.finite (add_comm _ _)
  nsmul := nsmulRec

instance RealValue.instNeg {R : Type} [Neg R] : Neg (RealValue R) where
  neg := RealValue.neg

instance RealValue.instDiv {R : Type} [Zero R] [Div R] [DecidableEq R] :
    Div (RealValue R) where
  div := RealValue.div

/-- A sample invocation `gram unigram.txt bigram.txt` over integer counts: the unigram
file holds `cat 3` and `dog 1`, the bigram file holds `cat dog 2` and `dog fox 1` and
opens or not as `bigramOpens` says, every write succeeds, and `log` answers 0. -/
def sampleGram (bigramOpens : Bool) : GramInput Int Int :=
  { argc := 4
    unigram_file := ⟨true, [some (ascii "cat 3\n"), some (ascii "dog 1\n")]⟩
    bigram_file := ⟨bigramOpens, [some (ascii "cat dog 2\n"), some (ascii "dog fox 1\n")]⟩
    env := ⟨Status.OK, Status.OK, true, Status.OK⟩
    word0 := [], count0 := 0, left0 := [], right0 := [], icount0 := 0
    strtod := fun s => (scanDecimal s).map Int.ofNat
    strtol := fun s => (scanDecimal s).map Int.ofNat
    log := fun _ => 0
    ofInt := fun n => n
    toFloat := fun d => d
    zeroF := 0 }

/-! ## Invariants used in the proofs -/

/-- Every value stored in the index is an `int32`. -/
def Int32Valued {K : Type} (index : ReimuTrie K) : Prop :=
  ∀ k v, index.find k = some v → toInt32 v = v

/-- A guarded stage: skipped when the status is not OK, otherwise executed and recorded
with the status it leaves. -/
def StageStep {D F : Type} (stage : Stage) (s s' : GramState D F) : Prop :=
  (s' = s ∧ s.status.ok = false)
  ∨ (s.status.ok = true ∧ s'.trace = s.trace ++ [(stage, s'.status)])

/-! # Properties -/

/-! ## Machine integers -/

theorem toInt32_of_range {n : Int} (h0 : -2 ^ 31 ≤ n) (h1 : n < 2 ^ 31) : toInt32 n = n := by
  unfold toInt32
  rw [Int.emod_eq_of_lt (by omega) (by omega)]
  omega

theorem toInt64_of_range {n : Int} (h0 : -2 ^ 63 ≤ n) (h1 : n < 2 ^ 63) : toInt64 n = n := by
  unfold toInt64
  rw [Int.emod_eq_of_lt (by omega) (by omega)]
  omega

theorem toInt32_range (n : Int) : -2 ^ 31 ≤ toInt32 n ∧ toInt32 n < 2 ^ 31 := by
  unfold toInt32
  have h1 := Int.emod_nonneg (n + 2 ^ 31) (by norm_num : (2 : Int) ^ 32 ≠ 0)
  have h2 := Int.emod_lt_of_pos (n + 2 ^ 31) (by norm_num : (0 : Int) < 2 ^ 32)
  constructor <;> omega

theorem toInt32_idem (n : Int) : toInt32 (toInt32 n) = toInt32 n :=
  toInt32_of_range (toInt32_range n).1 (toInt32_range n).2

/-- For ids in `[1, 2^31)` no step of the key computation overflows. -/
theorem packKey_eq {l r : Int} (hl0 : 1 ≤ l) (hl1 : l < 2 ^ 31) (hr0 : 1 ≤ r)
    (hr1 : r < 2 ^ 31) : packKey l r = l * 2 ^ 32 + r := by
  unfold packKey
  rw [toInt64_of_range (n := l) (by omega) (by omega),
    toInt64_of_range (n := l * 2 ^ 32) (by omega) (by omega),
    toInt64_of_range (by omega) (by omega)]

/-- C3: for ids `left_id`, `right_id` in `[1, 2^31)` the key packed by
`SaveBigramBinFile` round-trips: `key >> 32` is `left_id`, `key & 0xFFFFFFFF` is
`right_id`, and the key is `(left_id << 32) | right_id`. -/
theorem packKey_roundtrip (left_id right_id : Int)
    (hl : 1 ≤ left_id ∧ left_id < 2 ^ 31) (hr : 1 ≤ right_id ∧ right_id < 2 ^ 31) :
    packKey left_id right_id >>> (32 : Nat) = left_id
    ∧ Int.land (packKey left_id right_id) 0xFFFFFFFF = right_id
    ∧ packKey left_id right_id = Int.lor (left_id <<< (32 : Int)) right_id := by
  obtain ⟨hl0, hl1⟩ := hl
  obtain ⟨hr0, hr1⟩ := hr
  rw [packKey_eq hl0 hl1 hr0 hr1]
  obtain ⟨a, rfl⟩ := Int.eq_ofNat_of_zero_le (by omega : 0 ≤ left_id)
  obtain ⟨b, rfl⟩ := Int.eq_ofNat_of_zero_le (by omega : 0 ≤ right_id)
  have hb : b < 2 ^ 32 := by omega
  refine ⟨?_, ?_, ?_⟩
  · rw [Int.shiftRight_eq_div_pow]
    simp only [Nat.cast_pow, Nat.cast_ofNat]
    omega
  · have h : ((a : Int) * 2 ^ 32 + (b : Int)) = ((a * 2 ^ 32 + b : Nat) : Int) := by
      push_cast; ring
    have h2 : (0xFFFFFFFF : Int) = ((2 ^ 32 - 1 : Nat) : Int) := by norm_num
    rw [h, h2]
    show ((((a * 2 ^ 32 + b) &&& (2 ^ 32 - 1) : Nat)) : Int) = (b : Int)
    rw [Nat.and_pow_two_sub_one_eq_mod]
    congr 1
    omega
  · have h3 : ((a : Int) <<< (32 : Int)) = ((a * 2 ^ 32 : Nat) : Int) := by
      have := Int.shiftLeft_eq_mul_pow (a : Int) 32
      push_cast at this ⊢
      exact this
    rw [h3]
    show _ = (((a * 2 ^ 32 ||| b : Nat)) : Int)
    rw [Nat.mul_comm a, ← Nat.mul_add_lt_is_or hb a]
    push_cast
    ring

/-- C3 at `left_id = 1`, `right_id = 2`. -/
theorem packKey_roundtrip_witness :
    packKey 1 2 >>> (32 : Nat) = 1 ∧ Int.land (packKey 1 2) 0xFFFFFFFF = 2
    ∧ packKey 1 2 = Int.lor ((1 : Int) <<< (32 : Int)) 2 :=
  packKey_roundtrip 1 2 (by decide) (by decide)

/-! ## The term index builder -/

theorem StdMapOrdered.keys_ne {K V : Type} [LinearOrder K] {m : List (K × V)}
    (hm : StdMapOrdered m) : m.Pairwise (fun a b => a.1 ≠ b.1) :=
  List.Pairwise.imp (fun h => ne_of_lt h) hm

theorem buildLoop_weight {K D F : Type} [DecidableEq K] (toFloat : D → F)
    (m : List (K × D)) (index : ReimuTrie K) (w : List F) :
    (buildLoop toFloat m (index, w)).2 = w ++ m.map (fun e => toFloat e.2) := by
  induction m generalizing index w with
  | nil => simp [buildLoop]
  | cons e rest ih =>
    obtain ⟨k, v⟩ := e
    simp [buildLoop, ih]

theorem buildLoop_find_of_not_mem {K D F : Type} [DecidableEq K] (toFloat : D → F)
    (m : List (K × D)) (index : ReimuTrie K) (w : List F) (k : K)
    (hk : ∀ e ∈ m, e.1 ≠ k) :
    (buildLoop toFloat m (index, w)).1.find k = index.find k := by
  induction m generalizing index w with
  | nil => simp [buildLoop]
  | cons e rest ih =>
    obtain ⟨k', v⟩ := e
    have h1 : k' ≠ k := hk (k', v) (by simp)
    have h2 : ∀ e ∈ rest, e.1 ≠ k := fun e he => hk e (by simp [he])
    simp only [buildLoop]
    rw [ih _ _ h2]
    simp [ReimuTrie.Put, Ne.symm h1]

theorem buildLoop_find_getElem {K D F : Type} [DecidableEq K] (toFloat : D → F)
    (m : List (K × D)) (hm : m.Pairwise (fun a b => a.1 ≠ b.1))
    (index : ReimuTrie K) (w : List F) (i : Nat) (hi : i < m.length) :
    (buildLoop toFloat m (index, w)).1.find (m[i]).1 = some (toInt32 (w.length + i)) := by
  induction m generalizing index w i with
  | nil => simp at hi
  | cons e rest ih =>
    obtain ⟨k, v⟩ := e
    rw [List.pairwise_cons] at hm
    simp only [buildLoop]
    cases i with
    | zero =>
      simp only [List.getElem_cons_zero]
      rw [buildLoop_find_of_not_mem toFloat rest _ _ k (fun e he h => hm.1 e he h.symm)]
      simp [ReimuTrie.Put]
    | succ j =>
      simp only [List.getElem_cons_succ]
      rw [ih hm.2 _ _ j (by simpa using hi)]
      simp only [List.length_append, List.length_singleton]
      push_cast
      ring_nf

/-- The id of the `i`-th term (counting from 0) of a map with fewer than `2^31` terms
is `i + 1`. -/
theorem build_id_getElem {K D F : Type} [LinearOrder K] (toFloat : D → F) (zeroF : F)
    (env : WriteEnv) (unigram_data : List (K × D)) (index : ReimuTrie K) (status : Status)
    (hm : StdMapOrdered unigram_data) (hN : unigram_data.length < 2 ^ 31)
    (i : Nat) (hi : i < unigram_data.length) (d : Int) :
    (BuildAndSaveUnigramData toFloat zeroF env unigram_data index status).index.Get
      (unigram_data[i]).1 d = (i : Int) + 1 := by
  have h := buildLoop_find_getElem toFloat unigram_data hm.keys_ne index [zeroF] i hi
  simp only [BuildAndSaveUnigramData, ReimuTrie.Get, h]
  rw [toInt32_of_range]
  · simp; ring
  · simp; omega
  · simp only [List.length_singleton]; push_cast; omega

/-- A term outside the map is not touched by `BuildAndSaveUnigramData`. -/
theorem build_find_of_not_mem {K D F : Type} [LinearOrder K] (toFloat : D → F) (zeroF : F)
    (env : WriteEnv) (unigram_data : List (K × D)) (index : ReimuTrie K) (status : Status)
    (k : K) (hk : ∀ e ∈ unigram_data, e.1 ≠ k) :
    (BuildAndSaveUnigramData toFloat zeroF env unigram_data index status).index.find k
      = index.find k := by
  simp only [BuildAndSaveUnigramData]
  exact buildLoop_find_of_not_mem toFloat unigram_data index [zeroF] k hk

theorem StdMapOrdered.index_lt_of_key_lt {K V : Type} [LinearOrder K] {m : List (K × V)}
    (hm : StdMapOrdered m) {i j : Nat} (hi : i < m.length) (hj : j < m.length)
    (h : (m[i]).1 < (m[j]).1) : i < j := by
  by_contra hij
  rcases Nat.lt_or_ge j i with hlt | hge
  · have := (List.pairwise_iff_getElem.mp hm) j i hj hi hlt
    exact absurd h (not_lt_of_gt this)
  · have hji : i = j := by omega
    subst hji
    exact absurd h (lt_irrefl _)

/-- C1: for an aggregated unigram mapping with `N < 2^31` distinct terms (ids are
`int32`), `BuildAndSaveUnigramData` assigns the ids `1, 2, ..., N` to the terms in
ascending order of term: the ids read off along the map are exactly `1..N`; a smaller
term has a smaller id; every id is positive (id 0 is never assigned) and at most `N`;
distinct terms have distinct ids; and every number in `1..N` is the id of a term. -/
theorem BuildAndSaveUnigramData_ids {K D F : Type} [LinearOrder K] (toFloat : D → F)
    (zeroF : F) (env : WriteEnv) (unigram_data : List (K × D)) (index : ReimuTrie K)
    (status : Status) (hm : StdMapOrdered unigram_data)
    (hN : unigram_data.length < 2 ^ 31) :
    let r := BuildAndSaveUnigramData toFloat zeroF env unigram_data index status
    unigram_data.map (fun e => r.index.Get e.1 (-1))
        = (List.range unigram_data.length).map (fun (i : Nat) => (i : Int) + 1)
    ∧ (∀ a ∈ unigram_data, ∀ b ∈ unigram_data,
        a.1 < b.1 → r.index.Get a.1 (-1) < r.index.Get b.1 (-1))
    ∧ (∀ a ∈ unigram_data,
        0 < r.index.Get a.1 (-1) ∧ r.index.Get a.1 (-1) ≤ unigram_data.length)
    ∧ (∀ a ∈ unigram_data, ∀ b ∈ unigram_data,
        r.index.Get a.1 (-1) = r.index.Get b.1 (-1) → a.1 = b.1)
    ∧ (∀ n : Int, 1 ≤ n → n ≤ unigram_data.length →
        ∃ a ∈ unigram_data, r.index.Get a.1 (-1) = n) := by
  intro r
  have key : ∀ (i : Nat) (hi : i < unigram_data.length),
      r.index.Get (unigram_data[i]).1 (-1) = (i : Int) + 1 :=
    fun i hi => build_id_getElem toFloat zeroF env unigram_data index status hm hN i hi (-1)
  refine ⟨?_, ?_, ?_, ?_, ?_⟩
  · apply List.ext_getElem
    · simp
    · intro i h1 h2
      simp only [List.getElem_map, List.getElem_range]
      exact key i (by simpa using h1)
  · intro a ha b hb hab
    obtain ⟨i, hi, rfl⟩ := List.getElem_of_mem ha
    obtain ⟨j, hj, rfl⟩ := List.getElem_of_mem hb
    rw [key i hi, key j hj]
    have := hm.index_lt_of_key_lt hi hj hab
    omega
  · intro a ha
    obtain ⟨i, hi, rfl⟩ := List.getElem_of_mem ha
    rw [key i hi]
    omega
  · intro a ha b hb hab
    obtain ⟨i, hi, rfl⟩ := List.getElem_of_mem ha
    obtain ⟨j, hj, rfl⟩ := List.getElem_of_mem hb
    rw [key i hi, key j hj] at hab
    have hij : i = j := by omega
    subst hij
    rfl
  · intro n h1 h2
    have hlt : (n - 1).toNat < unigram_data.length := by omega
    refine ⟨unigram_data[(n - 1).toNat], List.getElem_mem _, ?_⟩
    rw [key _ hlt]
    omega

/-- C1 on the vocabulary `{cat, dog}`: `id(cat) = 1` and `id(dog) = 2`. -/
theorem BuildAndSaveUnigramData_ids_witness :
    StdMapOrdered [(ascii "cat", (3 : Int)), (ascii "dog", 1)]
    ∧ [(ascii "cat", (3 : Int)), (ascii "dog", 1)].length < 2 ^ 31
    ∧ [(ascii "cat", (3 : Int)), (ascii "dog", 1)].map
        (fun e => (BuildAndSaveUnigramData (fun d => d) (0 : Int)
          ⟨Status.OK, Status.OK, true, Status.OK⟩
          [(ascii "cat", (3 : Int)), (ascii "dog", 1)] ReimuTrie.empty Status.OK).index.Get
            e.1 (-1))
      = [1, 2] :=
  ⟨by unfold StdMapOrdered; decide, by decide,
   (BuildAndSaveUnigramData_ids (fun d => d) (0 : Int)
      ⟨Status.OK, Status.OK, true, Status.OK⟩
      [(ascii "cat", (3 : Int)), (ascii "dog", 1)] ReimuTrie.empty Status.OK
      (by unfold StdMapOrdered; decide) (by decide)).1⟩

/-- C6: for an aggregated unigram mapping with `N < 2^31` distinct terms, the weight
array built by `BuildAndSaveUnigramData` has length `N + 1`, its element 0 is the
`float` `0.0`, its elements `1..N` are the terms' weights in ascending term order, and
the element at index `id(term)` is the weight of `term`. -/
theorem BuildAndSaveUnigramData_weight {K D F : Type} [LinearOrder K] (toFloat : D → F)
    (zeroF : F) (env : WriteEnv) (unigram_data : List (K × D)) (index : ReimuTrie K)
    (status : Status) (hm : StdMapOrdered unigram_data)
    (hN : unigram_data.length < 2 ^ 31) :
    let r := BuildAndSaveUnigramData toFloat zeroF env unigram_data index status
    r.weight.length = unigram_data.length + 1
    ∧ r.weight[0]? = some zeroF
    ∧ r.weight = zeroF :: unigram_data.map (fun e => toFloat e.2)
    ∧ (∀ e ∈ unigram_data, r.weight[(r.index.Get e.1 (-1)).toNat]? = some (toFloat e.2)) := by
  intro r
  have hw : r.weight = zeroF :: unigram_data.map (fun e => toFloat e.2) := by
    simp only [r, BuildAndSaveUnigramData, buildLoop_weight]
    rfl
  refine ⟨by simp [hw], by simp [hw], hw, ?_⟩
  intro e he
  obtain ⟨i, hi, rfl⟩ := List.getElem_of_mem he
  rw [build_id_getElem toFloat zeroF env unigram_data index status hm hN i hi (-1), hw]
  have : ((i : Int) + 1).toNat = i + 1 := by omega
  rw [this]
  simp [hi]

/-- C6 on the map `{cat ↦ 3, dog ↦ 1}`: the weight array is `[0, 3, 1]`. -/
theorem BuildAndSaveUnigramData_weight_witness :
    StdMapOrdered [(ascii "cat", (3 : Int)), (ascii "dog", 1)]
    ∧ [(ascii "cat", (3 : Int)), (ascii "dog", 1)].length < 2 ^ 31
    ∧ (BuildAndSaveUnigramData (fun d => d) (0 : Int)
          ⟨Status.OK, Status.OK, true, Status.OK⟩
          [(ascii "cat", (3 : Int)), (ascii "dog", 1)] ReimuTrie.empty Status.OK).weight
      = [0, 3, 1] :=
  ⟨by unfold StdMapOrdered; decide, by decide,
   (BuildAndSaveUnigramData_weight (fun d => d) (0 : Int)
      ⟨Status.OK, Status.OK, true, Status.OK⟩
      [(ascii "cat", (3 : Int)), (ascii "dog", 1)] ReimuTrie.empty Status.OK
      (by unfold StdMapOrdered; decide) (by decide)).2.2.1⟩

/-! ## The bigram table builder -/

/-- The vectors the loop of `SaveBigramBinFile` builds: one key and one value for each
entry whose two ids are strictly positive, in iteration order. -/
theorem saveLoop_eq {K D F : Type} [LinearOrder K] [Neg D] [Div D] (ofInt : Int → D)
    (log : D → D) (toFloat : D → F) (total_count : Int)
    (index : ReimuTrie K) (bigram_data : List (Lex (K × K) × Int))
    (keys : List Int) (values : List F) :
    saveLoop ofInt log toFloat total_count index bigram_data (keys, values)
      = (keys ++ (bigram_data.filter (fun e =>
            decide (0 < toInt32 (index.Get (ofLex e.1).1 (-1))
              ∧ 0 < toInt32 (index.Get (ofLex e.1).2 (-1))))).map
            (fun e => packKey (toInt32 (index.Get (ofLex e.1).1 (-1)))
              (toInt32 (index.Get (ofLex e.1).2 (-1)))),
         values ++ (bigram_data.filter (fun e =>
            decide (0 < toInt32 (index.Get (ofLex e.1).1 (-1))
              ∧ 0 < toInt32 (index.Get (ofLex e.1).2 (-1))))).map
            (fun e => toFloat (-(log (ofInt e.2 / ofInt total_count))))) := by
  induction bigram_data generalizing keys values with
  | nil => simp [saveLoop]
  | cons e rest ih =>
    obtain ⟨words, count⟩ := e
    simp only [saveLoop]
    split
    · rename_i h
      rw [ih, List.filter_cons_of_pos (by simpa using h)]
      simp
    · rename_i h
      rw [ih, List.filter_cons_of_neg (by simpa using h)]

theorem buildLoop_int32Valued {K D F : Type} [DecidableEq K] (toFloat : D → F)
    (m : List (K × D)) (index : ReimuTrie K) (w : List F) (h : Int32Valued index) :
    Int32Valued (buildLoop toFloat m (index, w)).1 := by
  induction m generalizing index w with
  | nil => simpa [buildLoop] using h
  | cons e rest ih =>
    obtain ⟨k, v⟩ := e
    simp only [buildLoop]
    apply ih
    intro k' v' hk'
    simp only [ReimuTrie.Put] at hk'
    split at hk'
    · rw [← Option.some.inj hk']
      exact toInt32_idem _
    · exact h k' v' hk'

theorem Int32Valued.get {K : Type} {index : ReimuTrie K} (h : Int32Valued index) (k : K)
    (d : Int) : toInt32 (index.Get k d) = index.Get k d := by
  unfold ReimuTrie.Get
  cases hf : index.find k with
  | none => exact toInt32_idem _
  | some v => exact h k v hf

theorem build_int32Valued {K D F : Type} [LinearOrder K] (toFloat : D → F) (zeroF : F)
    (env : WriteEnv) (unigram_data : List (K × D)) (status : Status) :
    Int32Valued
      (BuildAndSaveUnigramData toFloat zeroF env unigram_data ReimuTrie.empty status).index := by
  simp only [BuildAndSaveUnigramData]
  apply buildLoop_int32Valued
  intro k v hk
  simp [ReimuTrie.empty] at hk

/-- A term outside the vocabulary resolves to `-1` in the index built from a fresh
trie. -/
theorem build_get_of_not_mem {K D F : Type} [LinearOrder K] (toFloat : D → F) (zeroF : F)
    (env : WriteEnv) (unigram_data : List (K × D)) (status : Status)
    (k : K) (hk : ∀ e ∈ unigram_data, e.1 ≠ k) :
    (BuildAndSaveUnigramData toFloat zeroF env unigram_data ReimuTrie.empty status).index.Get
      k (-1) = -1 := by
  unfold ReimuTrie.Get
  rw [build_find_of_not_mem toFloat zeroF env unigram_data ReimuTrie.empty status k hk]
  simp only [ReimuTrie.empty]
  exact toInt32_of_range (by norm_num) (by norm_num)

/-- C2: with the term index that `BuildAndSaveUnigramData` builds from a vocabulary,
`SaveBigramBinFile` hands to the table builder exactly one `(key, weight)` pair for each
bigram entry whose two terms both resolve to a strictly positive id, in iteration
order, the key being the packed pair of ids and the weight the transform of the
entry's count; an entry with a term outside the vocabulary yields no pair; and the
returned count is the number of retained pairs converted to `int`, which is that
number itself for a bigram map of fewer than `2^31` entries. -/
theorem SaveBigramBinFile_retained {K D F : Type} [LinearOrder K] [Neg D] [Div D]
    (ofInt : Int → D) (log : D → D) (toFloat : D → F) (zeroF : F) (env : WriteEnv)
    (unigram_data : List (K × D)) (bigram_data : List (Lex (K × K) × Int))
    (total_count : Int) (st status : Status) :
    let index :=
      (BuildAndSaveUnigramData toFloat zeroF env unigram_data ReimuTrie.empty st).index
    let r := SaveBigramBinFile ofInt log toFloat env bigram_data total_count index status
    let retained := bigram_data.filter (fun e =>
      decide (0 < index.Get (ofLex e.1).1 (-1) ∧ 0 < index.Get (ofLex e.1).2 (-1)))
    r.keys = retained.map (fun e =>
        packKey (index.Get (ofLex e.1).1 (-1)) (index.Get (ofLex e.1).2 (-1)))
    ∧ r.values = retained.map (fun e => toFloat (-(log (ofInt e.2 / ofInt total_count))))
    ∧ r.ret = toInt32 retained.length
    ∧ (bigram_data.length < 2 ^ 31 → r.ret = retained.length)
    ∧ (∀ e ∈ bigram_data,
        ((∀ u ∈ unigram_data, u.1 ≠ (ofLex e.1).1) ∨ (∀ u ∈ unigram_data, u.1 ≠ (ofLex e.1).2))
          → e ∉ retained) := by
  intro index r retained
  have hv : Int32Valued index := build_int32Valued toFloat zeroF env unigram_data st
  have hkv := saveLoop_eq ofInt log toFloat total_count index bigram_data [] []
  simp only [hv.get, List.nil_append] at hkv
  have hk : r.keys = retained.map (fun e =>
      packKey (index.Get (ofLex e.1).1 (-1)) (index.Get (ofLex e.1).2 (-1))) := by
    simp only [r, SaveBigramBinFile, hkv, retained]
  have hret : r.ret = toInt32 retained.length := by
    have : r.ret = toInt32 r.keys.length := rfl
    rw [this, hk, List.length_map]
  refine ⟨hk, ?_, hret, ?_, ?_⟩
  · simp only [r, SaveBigramBinFile, hkv, retained]
  · intro hB
    have hlen : retained.length ≤ bigram_data.length := List.length_filter_le _ _
    rw [hret]
    exact toInt32_of_range (by omega) (by omega)
  · intro e _ habs hmem
    have hpos := (List.mem_filter.mp hmem).2
    simp only [decide_eq_true_eq] at hpos
    rcases habs with h | h
    · have := build_get_of_not_mem toFloat zeroF env unigram_data st _ h
      have h1 := hpos.1
      simp only [index] at h1
      omega
    · have := build_get_of_not_mem toFloat zeroF env unigram_data st _ h
      have h2 := hpos.2
      simp only [index] at h2
      omega

/-- C2 on the bigrams `cat dog 2`, `dog fox 1` with the vocabulary `{cat, dog}`: only
the pair `(cat, dog)` is retained, with key `(1 << 32) + 2`, and the count is 1. -/
theorem SaveBigramBinFile_retained_witness :
    (SaveBigramBinFile (fun n => n) (fun d => d) (fun d => d)
        ⟨Status.OK, Status.OK, true, Status.OK⟩
        [(toLex (ascii "cat", ascii "dog"), (2 : Int)), (toLex (ascii "dog", ascii "fox"), 1)]
        3
        (BuildAndSaveUnigramData (fun d => d) (0 : Int)
          ⟨Status.OK, Status.OK, true, Status.OK⟩
          [(ascii "cat", (3 : Int)), (ascii "dog", 1)] ReimuTrie.empty Status.OK).index
        Status.OK).keys = [2 ^ 32 + 2]
    ∧ (SaveBigramBinFile (fun n => n) (fun d => d) (fun d => d)
        ⟨Status.OK, Status.OK, true, Status.OK⟩
        [(toLex (ascii "cat", ascii "dog"), (2 : Int)), (toLex (ascii "dog", ascii "fox"), 1)]
        3
        (BuildAndSaveUnigramData (fun d => d) (0 : Int)
          ⟨Status.OK, Status.OK, true, Status.OK⟩
          [(ascii "cat", (3 : Int)), (ascii "dog", 1)] ReimuTrie.empty Status.OK).index
        Status.OK).ret = 1 :=
  ⟨(SaveBigramBinFile_retained (fun n => n) (fun d => d) (fun d => d) (0 : Int)
      ⟨Status.OK, Status.OK, true, Status.OK⟩ [(ascii "cat", (3 : Int)), (ascii "dog", 1)]
      [(toLex (ascii "cat", ascii "dog"), (2 : Int)), (toLex (ascii "dog", ascii "fox"), 1)]
      3 Status.OK Status.OK).1.trans (by decide),
   ((SaveBigramBinFile_retained (fun n => n) (fun d => d) (fun d => d) (0 : Int)
      ⟨Status.OK, Status.OK, true, Status.OK⟩ [(ascii "cat", (3 : Int)), (ascii "dog", 1)]
      [(toLex (ascii "cat", ascii "dog"), (2 : Int)), (toLex (ascii "dog", ascii "fox"), 1)]
      3 Status.OK Status.OK).2.2.2.1 (by decide)).trans (by decide)⟩

/-- In the index built from a fresh trie, a strictly positive id belongs to a term of
the vocabulary and is its position in the map, counted from 1. -/
theorem build_get_pos {K D F : Type} [LinearOrder K] (toFloat : D → F) (zeroF : F)
    (env : WriteEnv) (unigram_data : List (K × D)) (status : Status)
    (hm : StdMapOrdered unigram_data) (hN : unigram_data.length < 2 ^ 31) (t : K)
    (hpos : 0 < (BuildAndSaveUnigramData toFloat zeroF env unigram_data ReimuTrie.empty
      status).index.Get t (-1)) :
    ∃ (i : Nat) (hi : i < unigram_data.length), (unigram_data[i]).1 = t
      ∧ (BuildAndSaveUnigramData toFloat zeroF env unigram_data ReimuTrie.empty
          status).index.Get t (-1) = (i : Int) + 1 := by
  by_cases hmem : ∃ e ∈ unigram_data, e.1 = t
  · obtain ⟨e, he, rfl⟩ := hmem
    obtain ⟨i, hi, rfl⟩ := List.getElem_of_mem he
    exact ⟨i, hi, rfl,
      build_id_getElem toFloat zeroF env unigram_data ReimuTrie.empty status hm hN i hi (-1)⟩
  · have hne : ∀ e ∈ unigram_data, e.1 ≠ t := fun e he h => hmem ⟨e, he, h⟩
    rw [build_get_of_not_mem toFloat zeroF env unigram_data status t hne] at hpos
    omega

theorem packKey_inj {l r l' r' : Int} (hl0 : 1 ≤ l) (hl1 : l < 2 ^ 31) (hr0 : 1 ≤ r)
    (hr1 : r < 2 ^ 31) (hl0' : 1 ≤ l') (hl1' : l' < 2 ^ 31) (hr0' : 1 ≤ r')
    (hr1' : r' < 2 ^ 31) (h : packKey l r = packKey l' r') : l = l' ∧ r = r' := by
  rw [packKey_eq hl0 hl1 hr0 hr1, packKey_eq hl0' hl1' hr0' hr1'] at h
  constructor <;> omega

/-- C10: with the term index that `BuildAndSaveUnigramData` builds in a fresh trie from
a vocabulary of fewer than `2^31` terms, the keys that `SaveBigramBinFile` hands to
the static table builder are pairwise distinct: two distinct retained
`(left_term, right_term)` entries of the bigram map never produce the same key. -/
theorem SaveBigramBinFile_keys_nodup {K D F : Type} [LinearOrder K] [Neg D] [Div D]
    (ofInt : Int → D) (log : D → D) (toFloat : D → F) (zeroF : F) (env : WriteEnv)
    (unigram_data : List (K × D)) (bigram_data : List (Lex (K × K) × Int))
    (total_count : Int) (st status : Status)
    (hm : StdMapOrdered unigram_data) (hN : unigram_data.length < 2 ^ 31)
    (hb : StdMapOrdered bigram_data) :
    (SaveBigramBinFile ofInt log toFloat env bigram_data total_count
      (BuildAndSaveUnigramData toFloat zeroF env unigram_data ReimuTrie.empty st).index
      status).keys.Nodup := by
  have hv := build_int32Valued toFloat zeroF env unigram_data st
  have hkv := saveLoop_eq ofInt log toFloat total_count
    (BuildAndSaveUnigramData toFloat zeroF env unigram_data ReimuTrie.empty st).index
    bigram_data [] []
  simp only [hv.get, List.nil_append] at hkv
  simp only [SaveBigramBinFile, hkv]
  rw [List.Nodup, List.pairwise_map]
  refine List.Pairwise.imp_of_mem ?_ (List.Pairwise.filter _ hb.keys_ne)
  intro a b ha hb' hab hkey
  have hpa := (List.mem_filter.mp ha).2
  have hpb := (List.mem_filter.mp hb').2
  simp only [decide_eq_true_eq] at hpa hpb
  obtain ⟨i1, hi1, e1, g1⟩ :=
    build_get_pos toFloat zeroF env unigram_data st hm hN _ hpa.1
  obtain ⟨i2, hi2, e2, g2⟩ :=
    build_get_pos toFloat zeroF env unigram_data st hm hN _ hpa.2
  obtain ⟨j1, hj1, f1, k1⟩ :=
    build_get_pos toFloat zeroF env unigram_data st hm hN _ hpb.1
  obtain ⟨j2, hj2, f2, k2⟩ :=
    build_get_pos toFloat zeroF env unigram_data st hm hN _ hpb.2
  rw [g1, g2, k1, k2] at hkey
  have hinj := packKey_inj (by omega) (by omega) (by omega) (by omega) (by omega)
    (by omega) (by omega) (by omega) hkey
  have h1 : i1 = j1 := by omega
  have h2 : i2 = j2 := by omega
  subst h1 h2
  apply hab
  have hl : (ofLex a.1).1 = (ofLex b.1).1 := e1.symm.trans f1
  have hr : (ofLex a.1).2 = (ofLex b.1).2 := e2.symm.trans f2
  exact ofLex_inj.mp (Prod.ext hl hr)

/-- C10 on the vocabulary `{cat, dog}` and the bigrams `cat dog 2`, `dog cat 1`,
`dog fox 1`. -/
theorem SaveBigramBinFile_keys_nodup_witness :
    StdMapOrdered [(ascii "cat", (3 : Int)), (ascii "dog", 1)]
    ∧ [(ascii "cat", (3 : Int)), (ascii "dog", 1)].length < 2 ^ 31
    ∧ StdMapOrdered [(toLex (ascii "cat", ascii "dog"), (2 : Int)),
        (toLex (ascii "dog", ascii "cat"), 1), (toLex (ascii "dog", ascii "fox"), 1)]
    ∧ (SaveBigramBinFile (fun n => n) (fun d => d) (fun d => d)
        ⟨Status.OK, Status.OK, true, Status.OK⟩
        [(toLex (ascii "cat", ascii "dog"), (2 : Int)),
          (toLex (ascii "dog", ascii "cat"), 1), (toLex (ascii "dog", ascii "fox"), 1)]
        4
        (BuildAndSaveUnigramData (fun d => d) (0 : Int)
          ⟨Status.OK, Status.OK, true, Status.OK⟩
          [(ascii "cat", (3 : Int)), (ascii "dog", 1)] ReimuTrie.empty Status.OK).index
        Status.OK).keys.Nodup :=
  ⟨by unfold StdMapOrdered; decide, by decide, by unfold StdMapOrdered; decide,
   SaveBigramBinFile_keys_nodup (fun n => n) (fun d => d) (fun d => d) (0 : Int)
    ⟨Status.OK, Status.OK, true, Status.OK⟩ [(ascii "cat", (3 : Int)), (ascii "dog", 1)]
    [(toLex (ascii "cat", ascii "dog"), (2 : Int)),
      (toLex (ascii "dog", ascii "cat"), 1), (toLex (ascii "dog", ascii "fox"), 1)]
    4 Status.OK Status.OK (by unfold StdMapOrdered; decide) (by decide)
    (by unfold StdMapOrdered; decide)⟩

/-! ## The pipeline -/

theorem stageReadUnigram_step {D F : Type} [Zero D] [Add D] [Neg D] [Div D]
    (inp : GramInput D F)
    (s : GramState D F) : StageStep Stage.readUnigram s (stageReadUnigram inp s) := by
  unfold StageStep stageReadUnigram
  cases h : s.status.ok <;> simp

theorem stageReadBigram_step {D F : Type} (inp : GramInput D F)
    (s : GramState D F) : StageStep Stage.readBigram s (stageReadBigram inp s) := by
  unfold StageStep stageReadBigram
  cases h : s.status.ok <;> simp

theorem stageBuildUnigram_step {D F : Type} (inp : GramInput D F)
    (s : GramState D F) : StageStep Stage.buildUnigram s (stageBuildUnigram inp s) := by
  unfold StageStep stageBuildUnigram
  cases h : s.status.ok <;> simp

theorem stageSaveBigram_step {D F : Type} [Neg D] [Div D] (inp : GramInput D F)
    (s : GramState D F) : StageStep Stage.saveBigram s (stageSaveBigram inp s) := by
  unfold StageStep stageSaveBigram
  cases h : s.status.ok <;> simp

theorem stageSteps_trace {D F : Type} (s0 s1 s2 s3 s4 : GramState D F)
    (h0 : s0.trace = [])
    (h1 : StageStep Stage.readUnigram s0 s1) (h2 : StageStep Stage.readBigram s1 s2)
    (h3 : StageStep Stage.buildUnigram s2 s3) (h4 : StageStep Stage.saveBigram s3 s4) :
    (s4.trace.map Prod.fst
        <+: [Stage.readUnigram, Stage.readBigram, Stage.buildUnigram, Stage.saveBigram])
    ∧ (∀ e ∈ s4.trace.dropLast, e.2.ok = true)
    ∧ ((∃ e ∈ s4.trace, e.2.ok = false) → s4.status.ok = false)
    ∧ (s4.status.ok = true ↔
        (s4.trace.map Prod.fst
            = [Stage.readUnigram, Stage.readBigram, Stage.buildUnigram, Stage.saveBigram]
          ∧ ∀ e ∈ s4.trace, e.2.ok = true)) := by
  unfold StageStep at h1 h2 h3 h4
  rcases h1 with ⟨rfl, n1⟩ | ⟨o1, t1⟩ <;> rcases h2 with ⟨rfl, n2⟩ | ⟨o2, t2⟩ <;>
    rcases h3 with ⟨rfl, n3⟩ | ⟨o3, t3⟩ <;> rcases h4 with ⟨rfl, n4⟩ | ⟨o4, t4⟩ <;>
    simp_all

/-- C8 support: a stage whose guard finds a non-OK status is skipped and changes
nothing. -/
theorem stages_skip {D F : Type} [Zero D] [Add D] [Neg D] [Div D] (inp : GramInput D F)
    (s : GramState D F) (h : s.status.ok = false) :
    stageReadUnigram inp s = s ∧ stageReadBigram inp s = s
    ∧ stageBuildUnigram inp s = s ∧ stageSaveBigram inp s = s := by
  simp [stageReadUnigram, stageReadBigram, stageBuildUnigram, stageSaveBigram, h]

theorem Status.eq_OK_of_ok {st : Status} (h : st.ok = true) : st = Status.OK := by
  cases st <;> simp [Status.ok] at h ⊢

theorem stageReadUnigram_run {D F : Type} [Zero D] [Add D] [Neg D] [Div D]
    (inp : GramInput D F) (s : GramState D F) (h : s.status = Status.OK) :
    stageReadUnigram inp s =
      { s with
        unigram_data := (ReadUnigramFile inp.strtod inp.log inp.word0 inp.count0
          inp.unigram_file s.unigram_data Status.OK).unigram_data
        status := (ReadUnigramFile inp.strtod inp.log inp.word0 inp.count0
          inp.unigram_file s.unigram_data Status.OK).status
        trace := s.trace ++ [(Stage.readUnigram,
          (ReadUnigramFile inp.strtod inp.log inp.word0 inp.count0
            inp.unigram_file s.unigram_data Status.OK).status)] } := by
  simp only [stageReadUnigram, h, Status.ok, if_true]

theorem stageReadBigram_run {D F : Type} (inp : GramInput D F) (s : GramState D F)
    (h : s.status = Status.OK) :
    stageReadBigram inp s =
      { s with
        bigram_data := (ReadBigramFile inp.strtol inp.left0 inp.right0 inp.icount0
          inp.bigram_file s.bigram_data Status.OK).bigram_data
        total_count := (ReadBigramFile inp.strtol inp.left0 inp.right0 inp.icount0
          inp.bigram_file s.bigram_data Status.OK).total_count
        status := (ReadBigramFile inp.strtol inp.left0 inp.right0 inp.icount0
          inp.bigram_file s.bigram_data Status.OK).status
        trace := s.trace ++ [(Stage.readBigram,
          (ReadBigramFile inp.strtol inp.left0 inp.right0 inp.icount0
            inp.bigram_file s.bigram_data Status.OK).status)] } := by
  simp only [stageReadBigram, h, Status.ok, if_true]

theorem stageBuildUnigram_run {D F : Type} (inp : GramInput D F) (s : GramState D F)
    (h : s.status = Status.OK) :
    stageBuildUnigram inp s =
      { s with
        index := (BuildAndSaveUnigramData inp.toFloat inp.zeroF inp.env s.unigram_data
          s.index Status.OK).index
        weight := (BuildAndSaveUnigramData inp.toFloat inp.zeroF inp.env s.unigram_data
          s.index Status.OK).weight
        status := (BuildAndSaveUnigramData inp.toFloat inp.zeroF inp.env s.unigram_data
          s.index Status.OK).status
        trace := s.trace ++ [(Stage.buildUnigram,
          (BuildAndSaveUnigramData inp.toFloat inp.zeroF inp.env s.unigram_data
            s.index Status.OK).status)] } := by
  simp only [stageBuildUnigram, h, Status.ok, if_true]

theorem stageSaveBigram_run {D F : Type} [Neg D] [Div D] (inp : GramInput D F)
    (s : GramState D F) (h : s.status = Status.OK) :
    stageSaveBigram inp s =
      { s with
        keys := (SaveBigramBinFile inp.ofInt inp.log inp.toFloat inp.env s.bigram_data
          s.total_count s.index Status.OK).keys
        values := (SaveBigramBinFile inp.ofInt inp.log inp.toFloat inp.env s.bigram_data
          s.total_count s.index Status.OK).values
        count := (SaveBigramBinFile inp.ofInt inp.log inp.toFloat inp.env s.bigram_data
          s.total_count s.index Status.OK).ret
        status := (SaveBigramBinFile inp.ofInt inp.log inp.toFloat inp.env s.bigram_data
          s.total_count s.index Status.OK).status
        trace := s.trace ++ [(Stage.saveBigram,
          (SaveBigramBinFile inp.ofInt inp.log inp.toFloat inp.env s.bigram_data
            s.total_count s.index Status.OK).status)] } := by
  simp only [stageSaveBigram, h, Status.ok, if_true]

theorem gramRun_eq {D F : Type} [Zero D] [Add D] [Neg D] [Div D] (inp : GramInput D F) :
    let r1 := ReadUnigramFile inp.strtod inp.log inp.word0 inp.count0 inp.unigram_file []
      Status.OK
    let r2 := ReadBigramFile inp.strtol inp.left0 inp.right0 inp.icount0 inp.bigram_file []
      Status.OK
    let r3 := BuildAndSaveUnigramData inp.toFloat inp.zeroF inp.env r1.unigram_data
      ReimuTrie.empty Status.OK
    let r4 := SaveBigramBinFile inp.ofInt inp.log inp.toFloat inp.env r2.bigram_data
      r2.total_count r3.index Status.OK
    gramRun inp =
      if inp.argc ≠ 4 then gramInit inp
      else if r1.status.ok = false then
        { gramInit inp with
          status := r1.status, unigram_data := r1.unigram_data,
          trace := [(Stage.readUnigram, r1.status)] }
      else if r2.status.ok = false then
        { gramInit inp with
          status := r2.status, unigram_data := r1.unigram_data,
          bigram_data := r2.bigram_data, total_count := r2.total_count,
          trace := [(Stage.readUnigram, r1.status), (Stage.readBigram, r2.status)] }
      else if r3.status.ok = false then
        { gramInit inp with
          status := r3.status, unigram_data := r1.unigram_data,
          bigram_data := r2.bigram_data, total_count := r2.total_count,
          index := r3.index, weight := r3.weight,
          trace := [(Stage.readUnigram, r1.status), (Stage.readBigram, r2.status),
            (Stage.buildUnigram, r3.status)] }
      else
        { gramInit inp with
          status := r4.status, unigram_data := r1.unigram_data,
          bigram_data := r2.bigram_data, total_count := r2.total_count,
          index := r3.index, weight := r3.weight,
          keys := r4.keys, values := r4.values, count := r4.ret,
          trace := [(Stage.readUnigram, r1.status), (Stage.readBigram, r2.status),
            (Stage.buildUnigram, r3.status), (Stage.saveBigram, r4.status)] } := by
  intro r1 r2 r3 r4
  unfold gramRun
  by_cases h0 : inp.argc = 4
  · have hinit : (gramInit inp).status = Status.OK := by simp [gramInit, h0]
    rw [stageReadUnigram_run inp _ hinit]
    simp only [h0, ne_eq, not_true_eq_false, if_false]
    cases h1 : r1.status.ok
    · simp only [if_true]
      rw [(stages_skip inp _ (by simpa [gramInit] using h1)).2.1,
        (stages_skip inp _ (by simpa [gramInit] using h1)).2.2.1,
        (stages_skip inp _ (by simpa [gramInit] using h1)).2.2.2]
      simp [gramInit, h0, r1]
    · have e1 : r1.status = Status.OK := Status.eq_OK_of_ok h1
      simp only [Bool.true_eq_false, if_false]
      rw [stageReadBigram_run inp _ (by simpa [gramInit] using e1)]
      cases h2 : r2.status.ok
      · simp only [if_true]
        rw [(stages_skip inp _ (by simpa [gramInit] using h2)).2.2.1,
          (stages_skip inp _ (by simpa [gramInit] using h2)).2.2.2]
        simp [gramInit, h0, r1, r2]
      · have e2 : r2.status = Status.OK := Status.eq_OK_of_ok h2
        simp only [Bool.true_eq_false, if_false]
        rw [stageBuildUnigram_run inp _ (by simpa [gramInit] using e2)]
        cases h3 : r3.status.ok
        · simp only [if_true]
          rw [(stages_skip inp _ (by simpa [gramInit] using h3)).2.2.2]
          simp [gramInit, h0, r1, r2, r3]
        · have e3 : r3.status = Status.OK := Status.eq_OK_of_ok h3
          simp only [Bool.true_eq_false, if_false]
          rw [stageSaveBigram_run inp _ (by simpa [gramInit] using e3)]
          simp [gramInit, h0, r1, r2, r3, r4]
  · have hinit : (gramInit inp).status.ok = false := by simp [gramInit, h0, Status.ok]
    rw [(stages_skip inp _ hinit).1, (stages_skip inp _ hinit).2.1,
      (stages_skip inp _ hinit).2.2.1, (stages_skip inp _ hinit).2.2.2]
    simp [h0]

/-- C8: `MakeGramModel` runs its stages in the order read-unigram, read-bigram,
build-and-save-unigram, save-bigram, each on the results of the stages before it, and
stops at the first stage that leaves a non-OK status.  With `r1`, `r2`, `r3`, `r4` the
results of `ReadUnigramFile`, `ReadBigramFile`, `BuildAndSaveUnigramData` and
`SaveBigramBinFile` on the given input, the final state is: untouched when `argc != 4`;
the result of the first stage alone when `r1` is not OK; of the first two when `r2` is
not OK; of the first three when `r3` is not OK; and of all four otherwise, every
variable a later stage would set keeping its initial value.  The exit code is 0 exactly
when `argc = 4` and all of `r1`, `r2`, `r3`, `r4` are OK, and -1 otherwise.  On the
record of executed stages: they are a prefix of the four in order; every stage but the
last one executed left an OK status; a stage that left a non-OK status makes the exit
code nonzero; and the exit code is 0 exactly when all four stages ran and each left an
OK status. -/
theorem MakeGramModel_stages {D F : Type} [Zero D] [Add D] [Neg D] [Div D]
    (inp : GramInput D F) :
    let r1 := ReadUnigramFile inp.strtod inp.log inp.word0 inp.count0 inp.unigram_file []
      Status.OK
    let r2 := ReadBigramFile inp.strtol inp.left0 inp.right0 inp.icount0 inp.bigram_file []
      Status.OK
    let r3 := BuildAndSaveUnigramData inp.toFloat inp.zeroF inp.env r1.unigram_data
      ReimuTrie.empty Status.OK
    let r4 := SaveBigramBinFile inp.ofInt inp.log inp.toFloat inp.env r2.bigram_data
      r2.total_count r3.index Status.OK
    (gramRun inp =
      if inp.argc ≠ 4 then gramInit inp
      else if r1.status.ok = false then
        { gramInit inp with
          status := r1.status, unigram_data := r1.unigram_data,
          trace := [(Stage.readUnigram, r1.status)] }
      else if r2.status.ok = false then
        { gramInit inp with
          status := r2.status, unigram_data := r1.unigram_data,
          bigram_data := r2.bigram_data, total_count := r2.total_count,
          trace := [(Stage.readUnigram, r1.status), (Stage.readBigram, r2.status)] }
      else if r3.status.ok = false then
        { gramInit inp with
          status := r3.status, unigram_data := r1.unigram_data,
          bigram_data := r2.bigram_data, total_count := r2.total_count,
          index := r3.index, weight := r3.weight,
          trace := [(Stage.readUnigram, r1.status), (Stage.readBigram, r2.status),
            (Stage.buildUnigram, r3.status)] }
      else
        { gramInit inp with
          status := r4.status, unigram_data := r1.unigram_data,
          bigram_data := r2.bigram_data, total_count := r2.total_count,
          index := r3.index, weight := r3.weight,
          keys := r4.keys, values := r4.values, count := r4.ret,
          trace := [(Stage.readUnigram, r1.status), (Stage.readBigram, r2.status),
            (Stage.buildUnigram, r3.status), (Stage.saveBigram, r4.status)] })
    ∧ (MakeGramModel inp =
        if inp.argc = 4 ∧ r1.status.ok = true ∧ r2.status.ok = true ∧ r3.status.ok = true
            ∧ r4.status.ok = true then 0
        else -1)
    ∧ ((gramRun inp).trace.map Prod.fst
        <+: [Stage.readUnigram, Stage.readBigram, Stage.buildUnigram, Stage.saveBigram])
    ∧ (∀ e ∈ (gramRun inp).trace.dropLast, e.2.ok = true)
    ∧ ((∃ e ∈ (gramRun inp).trace, e.2.ok = false) → MakeGramModel inp ≠ 0)
    ∧ (MakeGramModel inp = 0 ↔
        ((gramRun inp).trace.map Prod.fst
            = [Stage.readUnigram, Stage.readBigram, Stage.buildUnigram, Stage.saveBigram]
          ∧ ∀ e ∈ (gramRun inp).trace, e.2.ok = true)) := by
  intro r1 r2 r3 r4
  have hrun := gramRun_eq inp
  have h := stageSteps_trace (gramInit inp) _ _ _ (gramRun inp) rfl
    (stageReadUnigram_step inp _) (stageReadBigram_step inp _)
    (stageBuildUnigram_step inp _) (stageSaveBigram_step inp _)
  obtain ⟨h1, h2, h3, h4⟩ := h
  have hexit : MakeGramModel inp = 0 ↔ (gramRun inp).status.ok = true := by
    unfold MakeGramModel
    cases (gramRun inp).status.ok <;> simp
  refine ⟨hrun, ?_, h1, h2, ?_, ?_⟩
  · unfold MakeGramModel
    rw [hrun]
    by_cases h0 : inp.argc = 4
    · cases c1 : r1.status.ok <;> cases c2 : r2.status.ok <;> cases c3 : r3.status.ok <;>
        cases c4 : r4.status.ok <;> simp [h0, r1, r2, r3, r4, c1, c2, c3, c4]
    · simp [h0, gramInit, Status.ok]
  · intro hex h0
    have := h3 hex
    rw [hexit.mp h0] at this
    exact absurd this (by decide)
  · rw [hexit]
    exact h4

/-- C8 on two runs of `gram unigram.txt bigram.txt` with the unigram file
`"cat 3\ndog 1\n"`.  When the bigram file `"cat dog 2\ndog fox 1\n"` opens, all four
stages run, the one retained key is `(1 << 32) + 2` and the exit code is 0.  When it
does not open, the run stops after the second stage: the weight array is never built
and the exit code is -1. -/
theorem MakeGramModel_stages_witness :
    MakeGramModel (sampleGram true) = 0
    ∧ (gramRun (sampleGram true)).trace
        = [(Stage.readUnigram, Status.OK), (Stage.readBigram, Status.OK),
            (Stage.buildUnigram, Status.OK), (Stage.saveBigram, Status.OK)]
    ∧ (gramRun (sampleGram true)).keys = [2 ^ 32 + 2]
    ∧ MakeGramModel (sampleGram false) = -1
    ∧ (gramRun (sampleGram false)).trace
        = [(Stage.readUnigram, Status.OK),
            (Stage.readBigram, Status.IOError "failed to open")]
    ∧ (gramRun (sampleGram false)).weight = [] :=
  ⟨(MakeGramModel_stages (sampleGram true)).2.1.trans (by decide),
   (congrArg GramState.trace (MakeGramModel_stages (sampleGram true)).1).trans (by decide),
   (congrArg GramState.keys (MakeGramModel_stages (sampleGram true)).1).trans (by decide),
   (MakeGramModel_stages (sampleGram false)).2.1.trans (by decide),
   (congrArg GramState.trace (MakeGramModel_stages (sampleGram false)).1).trans (by decide),
   (congrArg GramState.weight (MakeGramModel_stages (sampleGram false)).1).trans (by decide)⟩

/-! ## `std::map` updates -/

theorem mapUpdate_ne_nil {K V : Type} [LinearOrder K] (f : V → V) (dflt : V) (k : K)
    (m : List (K × V)) : mapUpdate f dflt k m ≠ [] := by
  cases m with
  | nil => simp [mapUpdate]
  | cons e rest =>
    obtain ⟨k', v⟩ := e
    simp only [mapUpdate]
    split
    · simp
    · split <;> simp

theorem mem_mapUpdate_key {K V : Type} [LinearOrder K] (f : V → V) (dflt : V) (k : K)
    (m : List (K × V)) (e : K × V) (he : e ∈ mapUpdate f dflt k m) :
    e.1 = k ∨ ∃ e' ∈ m, e'.1 = e.1 := by
  induction m with
  | nil =>
    simp only [mapUpdate, List.mem_singleton] at he
    left; rw [he]
  | cons a rest ih =>
    obtain ⟨k', v⟩ := a
    simp only [mapUpdate] at he
    split at he
    · rcases List.mem_cons.mp he with h | h
      · left; rw [h]
      · right; exact ⟨e, h, rfl⟩
    · split at he
      · rcases List.mem_cons.mp he with h | h
        · right; exact ⟨(k', v), by simp, by rw [h]⟩
        · rcases ih h with h' | ⟨e', he', hk⟩
          · left; exact h'
          · right; exact ⟨e', by simp [he'], hk⟩
      · rcases List.mem_cons.mp he with h | h
        · right; exact ⟨(k', v), by simp, by rw [h]⟩
        · right; exact ⟨e, by simp [h], rfl⟩

/-- `m[k] = f(m[k])` keeps the keys of a `std::map` strictly ascending. -/
theorem mapUpdate_ordered {K V : Type} [LinearOrder K] (f : V → V) (dflt : V) (k : K)
    (m : List (K × V)) (hm : StdMapOrdered m) : StdMapOrdered (mapUpdate f dflt k m) := by
  unfold StdMapOrdered at *
  induction m with
  | nil => simp [mapUpdate]
  | cons a rest ih =>
    obtain ⟨k', v⟩ := a
    rw [List.pairwise_cons] at hm
    simp only [mapUpdate]
    split
    · rename_i hlt
      refine List.pairwise_cons.mpr ⟨?_, List.pairwise_cons.mpr hm⟩
      intro e he
      rcases List.mem_cons.mp he with h | h
      · rw [h]; exact hlt
      · exact lt_trans hlt (hm.1 e h)
    · split
      · rename_i hlt
        refine List.pairwise_cons.mpr ⟨?_, ih hm.2⟩
        intro e he
        rcases mem_mapUpdate_key f dflt k rest e he with h | ⟨e', he', hk⟩
        · show k' < e.1
          rw [h]; exact hlt
        · show k' < e.1
          rw [← hk]; exact hm.1 e' he'
      · exact List.pairwise_cons.mpr ⟨hm.1, hm.2⟩

/-- The sum of the values of a `std::map` after `m[k] += c`. -/
theorem mapUpdate_sum {K V : Type} [LinearOrder K] [AddCommMonoid V] (c : V) (k : K)
    (m : List (K × V)) :
    ((mapUpdate (fun v => v + c) 0 k m).map Prod.snd).sum = (m.map Prod.snd).sum + c := by
  induction m with
  | nil => simp [mapUpdate]
  | cons a rest ih =>
    obtain ⟨k', v⟩ := a
    simp only [mapUpdate]
    split
    · simp only [List.map_cons, List.sum_cons, zero_add]
      rw [add_comm]
    · split
      · simp only [List.map_cons, List.sum_cons, ih, add_assoc]
      · simp only [List.map_cons, List.sum_cons]
        rw [add_right_comm]

/-! ## The frequency aggregator -/

theorem StdMapOrdered.map_value {K V W : Type} [LinearOrder K] (g : V → W)
    {m : List (K × V)} (hm : StdMapOrdered m) :
    StdMapOrdered (m.map (fun e => (e.1, g e.2))) := by
  unfold StdMapOrdered at *
  rw [List.pairwise_map]
  exact hm

/-- Reading lines never changes the status: only a failed `ReadLine` does. -/
theorem unigramLoop_status {D : Type} [Zero D] [Add D] (strtod : List Nat → Option D)
    (lines : List (List Nat)) (s : UnigramState D) :
    (unigramLoop strtod (lines.map some) s).status = s.status := by
  induction lines generalizing s with
  | nil => rfl
  | cons line rest ih =>
    simp only [List.map_cons, unigramLoop]
    rw [ih]
    rfl

theorem sscanf_s_lf_map {D E : Type} (g : D → E) (strtod : List Nat → Option D)
    (line : List Nat) :
    sscanf_s_lf (fun s => (strtod s).map g) line = (sscanf_s_lf strtod line).map g := by
  unfold sscanf_s_lf
  cases scanToken line with
  | none => rfl
  | some p =>
    obtain ⟨w, rest⟩ := p
    dsimp only
    cases strtod (List.dropWhile isspace rest) <;> rfl

/-- The map left by the reading loop of `ReadUnigramFile` is a valid `std::map`
iteration order, whatever the lines are and whether or not a read fails. -/
theorem unigramLoop_ordered {D : Type} [Zero D] [Add D] (strtod : List Nat → Option D)
    (reads : List (Option (List Nat))) (s : UnigramState D)
    (hs : StdMapOrdered s.unigram_data) :
    StdMapOrdered (unigramLoop strtod reads s).unigram_data := by
  induction reads generalizing s with
  | nil => simpa [unigramLoop] using hs
  | cons r rest ih =>
    cases r with
    | none => simpa [unigramLoop] using hs
    | some line =>
      simp only [unigramLoop]
      apply ih
      exact mapUpdate_ordered _ _ _ _ hs

/-- The unigram mapping that `ReadUnigramFile` produces from an empty map has strictly
ascending, hence distinct, terms: it is an aggregated mapping in the sense of the
index builder. -/
theorem ReadUnigramFile_ordered {D : Type} [Zero D] [Add D] [Neg D] [Div D]
    (strtod : List Nat → Option D) (log : D → D) (word0 : Term) (count0 : D)
    (fd : ReadableFile) (status : Status) :
    StdMapOrdered (ReadUnigramFile strtod log word0 count0 fd [] status).unigram_data := by
  have hs1 : ∀ s0 : UnigramState D, s0.unigram_data = [] →
      StdMapOrdered (if s0.status.ok then unigramLoop strtod fd.reads s0 else s0).unigram_data := by
    intro s0 h0
    have hnil : StdMapOrdered s0.unigram_data := by rw [h0]; simp [StdMapOrdered]
    split
    · exact unigramLoop_ordered strtod fd.reads s0 hnil
    · exact hnil
  have h := hs1
    { word := word0, count := count0, unigram_data := [], sum := 0,
      status := if fd.opened then status else Status.IOError "failed to open" } rfl
  have hfin : ∀ s1 : UnigramState D, StdMapOrdered s1.unigram_data →
      StdMapOrdered
        (if s1.status.ok then
          ({ unigram_data := s1.unigram_data.map (fun e => (e.1, -(log (e.2 / s1.sum))))
             status := s1.status } : UnigramResult D)
         else { unigram_data := s1.unigram_data, status := s1.status }).unigram_data := by
    intro s1 h1
    cases s1.status.ok
    · exact h1
    · exact StdMapOrdered.map_value (fun v => -(log (v / s1.sum))) h1
  exact hfin _ h

theorem bigramReadLoop_ordered (strtol : List Nat → Option Int)
    (reads : List (Option (List Nat))) (s : BigramState)
    (hs : StdMapOrdered s.bigram_data) :
    StdMapOrdered (bigramReadLoop strtol reads s).bigram_data := by
  induction reads generalizing s with
  | nil => simpa [bigramReadLoop] using hs
  | cons r rest ih =>
    cases r with
    | none => simpa [bigramReadLoop] using hs
    | some line =>
      simp only [bigramReadLoop]
      apply ih
      exact mapUpdate_ordered _ _ _ _ hs

/-- The bigram mapping that `ReadBigramFile` produces from an empty map has strictly
ascending, hence distinct, term pairs. -/
theorem ReadBigramFile_ordered (strtol : List Nat → Option Int) (left0 right0 : Term)
    (count0 : Int) (fd : ReadableFile) (status : Status) :
    StdMapOrdered (ReadBigramFile strtol left0 right0 count0 fd [] status).bigram_data := by
  have hs1 : ∀ s0 : BigramState, s0.bigram_data = [] →
      StdMapOrdered (if s0.status.ok then bigramReadLoop strtol fd.reads s0 else s0).bigram_data := by
    intro s0 h0
    have hnil : StdMapOrdered s0.bigram_data := by rw [h0]; simp [StdMapOrdered]
    split
    · exact bigramReadLoop_ordered strtol fd.reads s0 hnil
    · exact hnil
  exact hs1
    { left := left0, right := right0, count := count0, bigram_data := [], total_count := 0,
      status := if fd.opened then status else Status.IOError "failed to open" } rfl

/-- C7 (as the code behaves): the code has no guard on the total.  For an empty
unigram or bigram file there is no entry and no total, and no weight is computed: the
maps and the vectors of the bigram table stay empty.  For any input that is read to its
end, `-log(c / sum)` is computed for every entry of the unigram map with the running
total as divisor, and `-log(count / total_count)` for every retained bigram entry,
whether or not that total is zero. -/
theorem weight_transform_unguarded {D F : Type} [Zero D] [Add D] [Neg D] [Div D]
    (strtod : List Nat → Option D) (strtol : List Nat → Option Int) (log : D → D)
    (ofInt : Int → D) (toFloat : D → F) (word0 : Term) (count0 : D) (left0 right0 : Term)
    (icount0 : Int) (env : WriteEnv) (index : ReimuTrie Term) (status : Status)
    (lines : List (List Nat)) (bigram_data : List (Lex (Term × Term) × Int))
    (total_count : Int) :
    (ReadUnigramFile strtod log word0 count0 ⟨true, []⟩ [] Status.OK).unigram_data = []
    ∧ (ReadBigramFile strtol left0 right0 icount0 ⟨true, []⟩ [] Status.OK).bigram_data = []
    ∧ (ReadBigramFile strtol left0 right0 icount0 ⟨true, []⟩ [] Status.OK).total_count = 0
    ∧ (SaveBigramBinFile ofInt log toFloat env [] 0 index status).keys = []
    ∧ (SaveBigramBinFile ofInt log toFloat env [] 0 index status).values = []
    ∧ (ReadUnigramFile strtod log word0 count0 ⟨true, lines.map some⟩ [] Status.OK).unigram_data
        = (unigramLoop strtod (lines.map some)
            { word := word0, count := count0, unigram_data := [], sum := 0,
              status := Status.OK }).unigram_data.map
            (fun e => (e.1, -(log (e.2 /
              (unigramLoop strtod (lines.map some)
                { word := word0, count := count0, unigram_data := [], sum := 0,
                  status := Status.OK }).sum))))
    ∧ (SaveBigramBinFile ofInt log toFloat env bigram_data total_count index status).values
        = (bigram_data.filter (fun e =>
            decide (0 < toInt32 (index.Get (ofLex e.1).1 (-1))
              ∧ 0 < toInt32 (index.Get (ofLex e.1).2 (-1))))).map
            (fun e => toFloat (-(log (ofInt e.2 / ofInt total_count)))) := by
  refine ⟨rfl, rfl, rfl, rfl, rfl, ?_, ?_⟩
  · have hst := unigramLoop_status strtod lines
      { word := word0, count := count0, unigram_data := [], sum := 0, status := Status.OK }
    simp only [ReadUnigramFile, Status.ok, if_true, hst]
  · simp only [SaveBigramBinFile, saveLoop_eq, List.nil_append]

/-- C7 fails as stated.  The unigram input `"cat 0\n"` has total 0 and one entry, and
the weight of that entry is computed all the same, as `-log(0 / 0)`: with a `log` that
answers 7 the map holds `cat ↦ -7`.  Likewise the bigram input `"cat dog 0\n"` has
`total_count = 0`, and with the vocabulary `{cat, dog}` the weight of the retained pair
is computed as `-log(0 / 0)`. -/
theorem zero_total_transform_invoked :
    (unigramLoop (fun s => (scanDecimal s).map Int.ofNat) [some (ascii "cat 0\n")]
        { word := [], count := 0, unigram_data := [], sum := 0, status := Status.OK }).sum = 0
    ∧ (ReadUnigramFile (fun s => (scanDecimal s).map Int.ofNat) (fun _ => 7) [] 0
        ⟨true, [some (ascii "cat 0\n")]⟩ [] Status.OK).unigram_data = [(ascii "cat", -7)]
    ∧ (ReadBigramFile (fun s => (scanDecimal s).map Int.ofNat) [] [] 0
        ⟨true, [some (ascii "cat dog 0\n")]⟩ [] Status.OK).total_count = 0
    ∧ (SaveBigramBinFile (fun n => n) (fun _ => (7 : Int)) (fun d => d)
        ⟨Status.OK, Status.OK, true, Status.OK⟩
        (ReadBigramFile (fun s => (scanDecimal s).map Int.ofNat) [] [] 0
          ⟨true, [some (ascii "cat dog 0\n")]⟩ [] Status.OK).bigram_data
        (ReadBigramFile (fun s => (scanDecimal s).map Int.ofNat) [] [] 0
          ⟨true, [some (ascii "cat dog 0\n")]⟩ [] Status.OK).total_count
        (BuildAndSaveUnigramData (fun d => d) (0 : Int)
          ⟨Status.OK, Status.OK, true, Status.OK⟩
          [(ascii "cat", (3 : Int)), (ascii "dog", 1)] ReimuTrie.empty Status.OK).index
        Status.OK).values = [-7] := by
  refine ⟨by decide, by decide, by decide, by decide⟩

theorem unigramLoop_sum {D : Type} [AddCommMonoid D] (strtod : List Nat → Option D)
    (lines : List (List Nat)) (s : UnigramState D) (t : D)
    (hs : s.sum = t + (s.unigram_data.map Prod.snd).sum) :
    (unigramLoop strtod (lines.map some) s).sum
      = t + ((unigramLoop strtod (lines.map some) s).unigram_data.map Prod.snd).sum := by
  induction lines generalizing s with
  | nil => simpa [unigramLoop] using hs
  | cons line rest ih =>
    simp only [List.map_cons, unigramLoop]
    apply ih
    simp only [unigramLine, mapUpdate_sum, hs, add_assoc]

theorem unigramLoop_ne_nil {D : Type} [Zero D] [Add D] (strtod : List Nat → Option D)
    (lines : List (List Nat)) (s : UnigramState D)
    (h : lines ≠ [] ∨ s.unigram_data ≠ []) :
    (unigramLoop strtod (lines.map some) s).unigram_data ≠ [] := by
  induction lines generalizing s with
  | nil =>
    rcases h with h | h
    · exact absurd rfl h
    · simpa [unigramLoop] using h
  | cons line rest ih =>
    simp only [List.map_cons, unigramLoop]
    apply ih
    right
    exact mapUpdate_ne_nil _ _ _ _

theorem sum_map_div (l : List (Term × ℝ)) (T : ℝ) :
    (l.map (fun e => e.2 / T)).sum = (l.map Prod.snd).sum / T := by
  induction l with
  | nil => simp
  | cons a rest ih => simp only [List.map_cons, List.sum_cons, ih, add_div]

theorem sum_pos_of_pos (l : List (Term × ℝ)) (hne : l ≠ []) (hpos : ∀ e ∈ l, 0 < e.2) :
    0 < (l.map Prod.snd).sum := by
  induction l with
  | nil => exact absurd rfl hne
  | cons a rest ih =>
    simp only [List.map_cons, List.sum_cons]
    have ha : 0 < a.2 := hpos a (by simp)
    by_cases hr : rest = []
    · subst hr; simpa using ha
    · have := ih hr (fun e he => hpos e (by simp [he]))
      linarith

/-- C9 (as the code behaves): for every unigram input with at least one line whose
aggregated counts are all positive, the running total is the sum of the aggregated
counts, `exp(-weight_i)` equals `count_i / total` for every term, and the sum of
`exp(-weight_i)` over all distinct terms is 1 (over the reals). -/
theorem ReadUnigramFile_exp_sum (strtod : List Nat → Option ℝ) (word0 : Term) (count0 : ℝ)
    (lines : List (List Nat)) (hne : lines ≠ [])
    (hpos : ∀ e ∈ (unigramLoop strtod (lines.map some)
        { word := word0, count := count0, unigram_data := [], sum := 0,
          status := Status.OK }).unigram_data, 0 < e.2) :
    let st := unigramLoop strtod (lines.map some)
      { word := word0, count := count0, unigram_data := [], sum := 0, status := Status.OK }
    let r := ReadUnigramFile strtod Real.log word0 count0
      ⟨true, lines.map some⟩ [] Status.OK
    st.sum = (st.unigram_data.map Prod.snd).sum
    ∧ r.unigram_data.map (fun e => (e.1, Real.exp (-e.2)))
        = st.unigram_data.map (fun e => (e.1, e.2 / st.sum))
    ∧ (r.unigram_data.map (fun e => Real.exp (-e.2))).sum = 1 := by
  intro st r
  have hsum : st.sum = (st.unigram_data.map Prod.snd).sum := by
    have := unigramLoop_sum strtod lines
      { word := word0, count := count0, unigram_data := [], sum := 0, status := Status.OK }
      0 (by simp)
    simpa using this
  have hnil : st.unigram_data ≠ [] := unigramLoop_ne_nil strtod lines _ (Or.inl hne)
  have hT : 0 < st.sum := by
    rw [hsum]
    exact sum_pos_of_pos _ hnil hpos
  have hr : r.unigram_data
      = st.unigram_data.map (fun e => (e.1, -Real.log (e.2 / st.sum))) := by
    have hst := unigramLoop_status strtod lines
      { word := word0, count := count0, unigram_data := [], sum := 0, status := Status.OK }
    simp only [r, ReadUnigramFile, Status.ok, if_true, hst, st]
  have hexp : ∀ e ∈ st.unigram_data, Real.exp (- -Real.log (e.2 / st.sum)) = e.2 / st.sum := by
    intro e he
    rw [neg_neg, Real.exp_log (div_pos (hpos e he) hT)]
  refine ⟨hsum, ?_, ?_⟩
  · rw [hr, List.map_map]
    apply List.map_congr_left
    intro e he
    simp only [Function.comp]
    rw [hexp e he]
  · rw [hr, List.map_map]
    have : st.unigram_data.map
          ((fun e : Term × ℝ => Real.exp (-e.2)) ∘ fun e => (e.1, -Real.log (e.2 / st.sum)))
        = st.unigram_data.map (fun e => e.2 / st.sum) := by
      apply List.map_congr_left
      intro e he
      simp only [Function.comp]
      rw [hexp e he]
    rw [this, sum_map_div, ← hsum]
    exact div_self (ne_of_gt hT)

/-- C9 (as the code behaves) on the input `"cat 3\ndog 1\n"`: the two values
`exp(-weight)` add up to 1. -/
theorem ReadUnigramFile_exp_sum_witness :
    [ascii "cat 3\n", ascii "dog 1\n"] ≠ []
    ∧ (∀ e ∈ (unigramLoop (fun s => (scanDecimal s).map (fun n : Nat => (n : ℝ)))
          ([ascii "cat 3\n", ascii "dog 1\n"].map some)
          { word := [], count := 0, unigram_data := [], sum := 0,
            status := Status.OK }).unigram_data, 0 < e.2)
    ∧ ((ReadUnigramFile (fun s => (scanDecimal s).map (fun n : Nat => (n : ℝ)))
          Real.log [] 0
          ⟨true, [ascii "cat 3\n", ascii "dog 1\n"].map some⟩ [] Status.OK).unigram_data.map
        (fun e => Real.exp (-e.2))).sum = 1 := by
  have h1 : sscanf_s_lf scanDecimal (ascii "cat 3\n") = ScanUnigram.full (ascii "cat") 3 := by
    decide
  have h2 : sscanf_s_lf scanDecimal (ascii "dog 1\n") = ScanUnigram.full (ascii "dog") 1 := by
    decide
  have hlt : ¬ ascii "dog" < ascii "cat" := by decide
  have hgt : ascii "cat" < ascii "dog" := by decide
  have hstate : (unigramLoop (fun s => (scanDecimal s).map (fun n : Nat => (n : ℝ)))
        ([ascii "cat 3\n", ascii "dog 1\n"].map some)
        { word := [], count := 0, unigram_data := [], sum := 0,
          status := Status.OK }).unigram_data
      = [(ascii "cat", (0 : ℝ) + 3), (ascii "dog", (0 : ℝ) + 1)] := by
    simp only [List.map_cons, List.map_nil, unigramLoop, unigramLine, sscanf_s_lf_map, h1, h2,
      ScanUnigram.map, ScanUnigram.store, mapUpdate, hlt, hgt, if_true, if_false,
      Nat.cast_ofNat, Nat.cast_one]
  have hpos : ∀ e ∈ (unigramLoop (fun s => (scanDecimal s).map (fun n : Nat => (n : ℝ)))
        ([ascii "cat 3\n", ascii "dog 1\n"].map some)
        { word := [], count := 0, unigram_data := [], sum := 0,
          status := Status.OK }).unigram_data, 0 < e.2 := by
    rw [hstate]
    intro e he
    simp only [List.mem_cons, List.mem_singleton, List.not_mem_nil, or_false] at he
    rcases he with rfl | rfl <;> norm_num
  exact ⟨by simp, hpos,
    (ReadUnigramFile_exp_sum (fun s => (scanDecimal s).map (fun n : Nat => (n : ℝ))) [] 0
      [ascii "cat 3\n", ascii "dog 1\n"] (by simp) hpos).2.2⟩

/-- C9 fails as stated on the empty input: there is no aggregated count, so all of
them are positive, and the sum of `exp(-weight_i)` over no term is 0, not 1. -/
theorem empty_input_exp_sum :
    (∀ e ∈ (unigramLoop (fun _ => (none : Option ℝ)) []
          { word := [], count := 0, unigram_data := [], sum := 0,
            status := Status.OK }).unigram_data, 0 < e.2)
    ∧ (ReadUnigramFile (fun _ => (none : Option ℝ)) Real.log [] 0
          ⟨true, []⟩ [] Status.OK).status = Status.OK
    ∧ ((ReadUnigramFile (fun _ => (none : Option ℝ)) Real.log [] 0
          ⟨true, []⟩ [] Status.OK).unigram_data.map (fun e => Real.exp (-e.2))).sum ≠ 1 := by
  refine ⟨?_, rfl, ?_⟩
  · intro e he
    simp [unigramLoop] at he
  · have h : (ReadUnigramFile (fun _ => (none : Option ℝ)) Real.log [] 0
        ⟨true, []⟩ [] Status.OK).unigram_data = [] := rfl
    rw [h]
    simp

end milkcat
